import Mathlib

/-!
# Verification of the crankycoin networking core (`crankycoin/node.py`)

A shallow embedding of the peer-to-peer node orchestration layer:
the `NodeMixin` / `FullNode` remote-client operations, peer admission
(`check_peers`), broadcast paths, the mining loop, and lifecycle shutdown.

Conventions of the embedding:

* JSON values are modelled by the inductive `JVal`.
* The outcome of `requests.get` / `requests.post` is an `HttpResult`:
  either a response (status code plus a body), or `requestException`
  (the `requests.exceptions.RequestException` that the source catches).
* The double decode `json.loads(response.json())` either yields a value or
  raises; a response body is therefore modelled as `Option JVal`, with
  `none` standing for a body on which the decode raises.
* Python exceptions that the source does **not** catch (`ValueError` from
  `json.loads`, `KeyError` from a missing dict key, `AttributeError` /
  `TypeError` from using a non-dict as a dict) surface as `PyOutcome.raised`.
* Mutation of the `Peers` registry is passed explicitly; downtime recording
  is modelled as pure accounting (the eviction policy is owned by the
  external `Peers` class and not specified).
-/

mutual
/-- JSON-like values, the payloads moved between peers. -/
inductive JVal where
  | jnull : JVal
  | jbool : Bool → JVal
  | jnum : Int → JVal
  | jstr : String → JVal
  | jarr : JArr → JVal
  | jobj : JObj → JVal
deriving Repr, DecidableEq
/-- A JSON array (spine of `JVal`s). -/
inductive JArr where
  | nil : JArr
  | cons : JVal → JArr → JArr
deriving Repr, DecidableEq
/-- A JSON object: an ordered field list. -/
inductive JObj where
  | nil : JObj
  | cons : String → JVal → JObj → JObj
deriving Repr, DecidableEq
end

/-- First value bound to a key in an object. -/
def JObj.lookup : JObj → String → Option JVal
  | .nil, _ => none
  | .cons k v rest, key => if k = key then some v else JObj.lookup rest key

/-- Build a JSON array from a list of values. -/
def JArr.ofList : List JVal → JArr
  | [] => .nil
  | v :: vs => .cons v (JArr.ofList vs)

/-- Python dict lookup `d.get(k)`: `some v` when `d` is an object holding `k`,
`none` otherwise (also when `d` is not an object: the embedding's callers
distinguish that case separately via `JVal.isObj`). -/
def JVal.get : JVal → String → Option JVal
  | .jobj fields, k => fields.lookup k
  | _, _ => none

/-- Whether the value is a JSON object (a Python dict). -/
def JVal.isObj : JVal → Bool
  | .jobj _ => true
  | _ => false

/-- Outcome of one `requests.get` / `requests.post` call: a response carrying
the HTTP status code and the decoded body (`none` when
`json.loads(response.json())` would raise), or the transport-level
`requests.exceptions.RequestException`. -/
inductive HttpResult where
  | resp : Nat → Option JVal → HttpResult
  | requestException : HttpResult
deriving Repr, DecidableEq

/-- Result of running a piece of Python code: a normal return value, or an
uncaught exception propagating out. -/
inductive PyOutcome (α : Type) where
  | ok : α → PyOutcome α
  | raised : PyOutcome α
deriving Repr, DecidableEq

namespace NodeMixin

/-- `NodeMixin.request_nodes` (node.py lines 34–43): on a 200 response,
decode and return the body; on `RequestException`, record downtime and
return `None`; on any other status, return `None`.  A 200 response whose
body fails to decode raises (the `ValueError` from `json.loads` is not
caught).  The `Bool` component records whether downtime was recorded. -/
def request_nodes (r : HttpResult) : PyOutcome (Option JVal) × Bool :=
  match r with
  | .requestException => (.ok none, true)
  | .resp code body =>
    if code = 200 then
      match body with
      | some j => (.ok (some j), false)
      | none => (.raised, false)
    else (.ok none, false)

/-- `NodeMixin.ping_status` (node.py lines 54–63): on a 200 response, return
the **comparison** `status_dict == config['network']` (a bool); on
`RequestException`, return `None` with no downtime recorded; on any other
status, return `None`.  A 200 response whose body fails to decode raises. -/
def ping_status (network : JVal) (r : HttpResult) : PyOutcome (Option Bool) :=
  match r with
  | .requestException => .ok none
  | .resp code body =>
    if code = 200 then
      match body with
      | some j => .ok (some (decide (j = network)))
      | none => .raised
    else .ok none

end NodeMixin

namespace FullNode

/-- The five fields read out of the block dict by
`FullNode.request_block_header`, in source order. -/
structure BlockHeader where
  previous_hash : JVal
  merkle_root : JVal
  timestamp : JVal
  nonce : JVal
  version : JVal
deriving Repr, DecidableEq

/-- Look a key up in a decoded body the way Python's `d['k']` does: raise
when the value is not a dict or lacks the key. -/
def dictIndex (j : JVal) (k : String) : PyOutcome JVal :=
  match j.get k with
  | some v => .ok v
  | none => .raised

/-- URL selector chosen by `FullNode.request_block_header`
(node.py lines 152–158): `block_hash` wins over `height`; with neither,
the request uses selector `"height"` with value `"latest"`. -/
def blockHeaderSelector (block_hash : Option String) (height : Option String) :
    String × String :=
  match block_hash with
  | some h => ("hash", h)
  | none =>
    match height with
    | some ht => ("height", ht)
    | none => ("height", "latest")

/-- Response handling of `FullNode.request_block_header`
(node.py lines 159–173): on a 200 response, decode the body and build a
`BlockHeader` from its five fields (a missing field raises `KeyError`); on
`RequestException`, log, record downtime and return `None`; otherwise
return `None`. -/
def request_block_header (r : HttpResult) : PyOutcome (Option BlockHeader) × Bool :=
  match r with
  | .requestException => (.ok none, true)
  | .resp code body =>
    if code = 200 then
      match body with
      | none => (.raised, false)
      | some j =>
        match dictIndex j "previous_hash", dictIndex j "merkle_root",
              dictIndex j "timestamp", dictIndex j "nonce", dictIndex j "version" with
        | .ok ph, .ok mr, .ok ts, .ok nc, .ok v =>
          (.ok (some ⟨ph, mr, ts, nc, v⟩), false)
        | _, _, _, _, _ => (.raised, false)
    else (.ok none, false)

/-- The transaction record built by `FullNode.request_transaction` from the
fetched fields (constructor-argument order of the external `Transaction`
class; the claimed `tx_hash` is carried separately by the caller). -/
structure Transaction where
  source : JVal
  destination : JVal
  amount : JVal
  fee : JVal
  prev_hash : JVal
  tx_type : JVal
  timestamp : JVal
  asset : JVal
  data : JVal
  signature : JVal
deriving Repr, DecidableEq

/-- Extract the ten content fields plus the claimed `tx_hash` from a decoded
transaction body, in the lookup order of the source; any missing key
raises `KeyError`. -/
def readTransaction (j : JVal) : PyOutcome (Transaction × JVal) :=
  match dictIndex j "source", dictIndex j "destination", dictIndex j "amount",
        dictIndex j "fee", dictIndex j "prev_hash", dictIndex j "tx_type",
        dictIndex j "timestamp", dictIndex j "tx_hash", dictIndex j "asset",
        dictIndex j "data", dictIndex j "signature" with
  | .ok src, .ok dst, .ok amt, .ok fee, .ok ph, .ok ty, .ok ts, .ok claimed,
    .ok asset, .ok dat, .ok sig =>
    .ok (⟨src, dst, amt, fee, ph, ty, ts, asset, dat, sig⟩, claimed)
  | _, _, _, _, _, _, _, _, _, _, _ => .raised

/-- `FullNode.request_transaction` (node.py lines 175–202).  `hashFn` is
modelled from the spec: the external `Transaction` class's `tx_hash` is the
content hash recomputed from the fetched fields ("recompute the hash from
the fetched fields").  On a 200 response: decode, read the fields, compare
the recomputed hash against the claimed `tx_hash`; on mismatch log and
return `None` (no downtime).  On `RequestException`: record downtime,
return `None`.  Otherwise return `None`. -/
def request_transaction (hashFn : Transaction → JVal) (r : HttpResult) :
    PyOutcome (Option (Transaction × JVal)) × Bool :=
  match r with
  | .requestException => (.ok none, true)
  | .resp code body =>
    if code = 200 then
      match body with
      | none => (.raised, false)
      | some j =>
        match readTransaction j with
        | .raised => (.raised, false)
        | .ok (t, claimed) =>
          if hashFn t ≠ claimed then (.ok none, false)
          else (.ok (some (t, claimed)), false)
    else (.ok none, false)

/-- `FullNode.request_transactions_inv` (node.py lines 204–216): on a 200
response, decode and return the `tx_hashes` field (missing key raises);
on `RequestException`, record downtime and return `None`; otherwise
return `None`. -/
def request_transactions_inv (r : HttpResult) : PyOutcome (Option JVal) × Bool :=
  match r with
  | .requestException => (.ok none, true)
  | .resp code body =>
    if code = 200 then
      match body with
      | none => (.raised, false)
      | some j =>
        match dictIndex j "tx_hashes" with
        | .ok v => (.ok (some v), false)
        | .raised => (.raised, false)
    else (.ok none, false)

/-- `FullNode.request_blocks_inv` (node.py lines 218–229): on a 200
response, decode and return the `block_hashes` field (missing key raises);
on `RequestException`, record downtime and return `None`; otherwise
return `None`. -/
def request_blocks_inv (r : HttpResult) : PyOutcome (Option JVal) × Bool :=
  match r with
  | .requestException => (.ok none, true)
  | .resp code body =>
    if code = 200 then
      match body with
      | none => (.raised, false)
      | some j =>
        match dictIndex j "block_hashes" with
        | .ok v => (.ok (some v), false)
        | .raised => (.raised, false)
    else (.ok none, false)

end FullNode

/-! ## Peer discovery and admission (`check_peers`, node.py lines 126–150) -/

/-- The network configuration the admission pass reads:
`MIN_PEERS`, `MAX_PEERS` and `config['network']` (the status descriptor
two compatible peers must share). -/
structure Config where
  min_peers : Nat
  max_peers : Nat
  network : JVal

/-- The remote side, held fixed: for each peer address, the outcome of the
node-list GET, the status GET and the connect POST issued to it. -/
structure Env where
  nodesResp : String → HttpResult
  statusResp : String → HttpResult
  connectResp : String → HttpResult

/-- Modelled from the spec: the external `Peers` registry's `add_peer`
(the `crankycoin.repository.Peers` class is not under src/).  The spec's
PeerSet is a mapping keyed by peer address ("Unique key in the peer set")
whose "insertion is a no-op once at maximum"; the peer set is carried as a
duplicate-free list. -/
def addPeer (max_peers : Nat) (ps : List String) (p : String) : List String :=
  if max_peers ≤ ps.length ∨ p ∈ ps then ps else ps ++ [p]

/-- Python set union `known.union(xs)`: append the members of `xs` not
already present. -/
def unionPeers (known : List String) (xs : List String) : List String :=
  xs.foldl (fun acc s => if s ∈ acc then acc else acc ++ [s]) known

/-- Read a `full_nodes` value as the iterable of peer addresses it is
expected to be (an array of strings); anything else raises when iterated. -/
def JArr.asStrings : JArr → Option (List String)
  | .nil => some []
  | .cons (.jstr s) rest => (JArr.asStrings rest).map (fun l => s :: l)
  | .cons _ _ => none

/-- View a decoded value as a list of peer-address strings. -/
def JVal.asStringList : JVal → Option (List String)
  | .jarr a => a.asStrings
  | _ => none

/-- The loop body of `NodeMixin.find_known_peers` (node.py lines 45–52):
iterate over the peers known at entry, ask each for its node list via
`request_nodes`, and union each successful reply's `full_nodes` into the
accumulator.  A failed request contributes nothing; a reply without a
usable `full_nodes` list raises (`KeyError` / `TypeError`, not caught). -/
def collectKnown (env : Env) : List String → List String → PyOutcome (List String)
  | [], known => .ok known
  | p :: rest, known =>
    match NodeMixin.request_nodes (env.nodesResp p) with
    | (.raised, _) => .raised
    | (.ok none, _) => collectKnown env rest known
    | (.ok (some j), _) =>
      match FullNode.dictIndex j "full_nodes" with
      | .raised => .raised
      | .ok v =>
        match v.asStringList with
        | none => .raised
        | some xs => collectKnown env rest (unionPeers known xs)

/-- `NodeMixin.find_known_peers`: the union of the current peer set with
the node lists reported by each current peer. -/
def find_known_peers (env : Env) (ps : List String) : PyOutcome (List String) :=
  collectKnown env ps ps

/-- The per-candidate admission body of `FullNode.check_peers`
(node.py lines 136–149): skip self; fetch the candidate's status and
require a 200 with a body equal to `config['network']`; then POST a
connect and require a 202 whose body's `success` field `is True`; admit
on both.  `RequestException` anywhere in the sequence is caught and skips
the candidate; a decode failure on a taken branch raises. -/
def processPeer (cfg : Config) (host : String) (env : Env) (ps : List String)
    (peer : String) : PyOutcome Unit × List String :=
  if peer = host then (.ok (), ps)
  else
    match env.statusResp peer with
    | .requestException => (.ok (), ps)
    | .resp code body =>
      if code ≠ 200 then (.ok (), ps)
      else
        match body with
        | none => (.raised, ps)
        | some j =>
          if j ≠ cfg.network then (.ok (), ps)
          else
            match env.connectResp peer with
            | .requestException => (.ok (), ps)
            | .resp ccode cbody =>
              if ccode = 202 then
                match cbody with
                | none => (.raised, ps)
                | some cj =>
                  if cj.isObj then
                    if cj.get "success" = some (.jbool true) then
                      (.ok (), addPeer cfg.max_peers ps peer)
                    else (.ok (), ps)
                  else (.raised, ps)
              else (.ok (), ps)

/-- The candidate loop of `FullNode.check_peers` (node.py lines 133–149):
process candidates in order, breaking as soon as the live peer count has
reached `MAX_PEERS`. -/
def admissionLoop (cfg : Config) (host : String) (env : Env) :
    List String → List String → PyOutcome Unit × List String
  | [], ps => (.ok (), ps)
  | peer :: rest, ps =>
    if cfg.max_peers ≤ ps.length then (.ok (), ps)
    else
      match processPeer cfg host env ps peer with
      | (.ok _, ps') => admissionLoop cfg host env rest ps'
      | (.raised, ps') => (.raised, ps')

/-- `FullNode.check_peers` (node.py lines 126–150): when the peer count is
below `MIN_PEERS`, gather discovery candidates via `find_known_peers` and
run the admission loop over them; otherwise do nothing.  The second
component is the peer set at exit (normal or exceptional). -/
def check_peers (cfg : Config) (host : String) (env : Env) (ps : List String) :
    PyOutcome Unit × List String :=
  if ps.length < cfg.min_peers then
    match find_known_peers env ps with
    | .raised => (.raised, ps)
    | .ok known => admissionLoop cfg host env known ps
  else (.ok (), ps)

/-! ## Broadcast of a locally-originated transaction
(`NodeMixin.broadcast_transaction`, node.py lines 65–78) -/

/-- What one run of the broadcast loop did: the value returned (the first
response obtained, if any), the peers a POST was issued to, and the peers
downtime was recorded against. -/
structure BroadcastResult where
  response : Option (Nat × Option JVal)
  posted : List String
  downtimed : List String
deriving Repr, DecidableEq

/-- The peer loop of `NodeMixin.broadcast_transaction` (node.py
lines 71–78), after the `check_peers` refresh and with the transaction
body fixed: POST to each peer in turn; **return the first response
obtained** (whatever its status code), recording downtime and continuing
on `RequestException`; return `None` when every POST raised. -/
def broadcast_transaction_loop (postResp : String → HttpResult) :
    List String → BroadcastResult
  | [] => ⟨none, [], []⟩
  | p :: rest =>
    match postResp p with
    | .resp code body => ⟨some (code, body), [p], []⟩
    | .requestException =>
      let r := broadcast_transaction_loop postResp rest
      ⟨r.response, p :: r.posted, p :: r.downtimed⟩

/-! ## The mining loop (`FullNode.mine`, node.py lines 279–290) -/

/-- The candidate block a mining attempt may produce: its transaction list
(position zero is the implicit coinbase/reward transaction) and its
header hash. -/
structure MinedBlock where
  transactions : List JVal
  header_hash : String
deriving Repr, DecidableEq

/-- The externally observable side effects of the mining loop's success
path. -/
inductive MineEffect where
  | removeFromMempool : List JVal → MineEffect
  | broadcastBlockInv : String → MineEffect
deriving Repr, DecidableEq

/-- One iteration of `FullNode.mine` (node.py lines 282–289): no candidate
(`mine_block` returned falsy) does nothing; a candidate accepted by
`blockchain.add_block` removes `block.transactions[1:]` from the mempool
and then broadcasts the block hash; a rejected candidate does nothing. -/
def mineStep (add_block : MinedBlock → Bool) (attempt : Option MinedBlock) :
    List MineEffect :=
  match attempt with
  | none => []
  | some b =>
    if add_block b then
      [.removeFromMempool (b.transactions.drop 1), .broadcastBlockInv b.header_hash]
    else []

/-- The mining loop over a finite schedule of attempts (one entry per
iteration executed before the exit flag is observed), as the concatenation
of the per-iteration effects. -/
def mine (add_block : MinedBlock → Bool) (attempts : List (Option MinedBlock)) :
    List MineEffect :=
  (attempts.map (mineStep add_block)).flatten

/-! ## Lifecycle: mining thread vs. `shutdown`
(`FullNode.shutdown`, node.py lines 113–117, and `FullNode.mine`)

A small interleaving transition system over the shared state the two
threads touch: `exit_flag`, the mining thread's position in its loop, the
main thread's position inside `shutdown`, the exposure-layer (bottle)
thread's liveness, and the global log of observable events. -/

/-- Position of the mining thread: at the `while not self.exit_flag` poll,
inside one loop iteration, or exited. -/
inductive MinerPC where
  | atLoopTop : MinerPC
  | inIteration : MinerPC
  | exited : MinerPC
deriving Repr, DecidableEq

/-- Position of the main thread inside `shutdown` (miner mode):
before `shutdown`, after `self.exit_flag = True`, after
`self.mining_thread.join()`, and after `self.bottle_thread.join()`
(i.e. `shutdown` has returned). -/
inductive MainPC where
  | beforeShutdown : MainPC
  | flagSet : MainPC
  | minerJoined : MainPC
  | returned : MainPC
deriving Repr, DecidableEq

/-- Observable lifecycle events. -/
inductive LifeEv where
  | minedBroadcast : LifeEv
  | shutdownReturned : LifeEv
deriving Repr, DecidableEq

/-- Joint state of the three threads and the event log. -/
structure LifeState where
  exit_flag : Bool
  minerPC : MinerPC
  mainPC : MainPC
  bottleDone : Bool
  events : List LifeEv
deriving Repr, DecidableEq

/-- Initial state of a node started with mining enabled
(`__init__` sets `self.exit_flag = False` and starts the mining thread). -/
def initLife : LifeState :=
  { exit_flag := false, minerPC := .atLoopTop, mainPC := .beforeShutdown,
    bottleDone := false, events := [] }

/-- One interleaved step.  The mining thread polls `exit_flag` only at the
top of its loop (an in-flight iteration completes — and may broadcast —
even after the flag is set); `join` steps of the main thread are enabled
only once the joined thread has exited; `shutdown` sets the flag, joins
the mining thread, then joins the bottle thread and returns. -/
inductive LifeStep : LifeState → LifeState → Prop where
  | pollContinue : ∀ s, s.minerPC = .atLoopTop → s.exit_flag = false →
      LifeStep s { s with minerPC := .inIteration }
  | pollExit : ∀ s, s.minerPC = .atLoopTop → s.exit_flag = true →
      LifeStep s { s with minerPC := .exited }
  | iterationNoCommit : ∀ s, s.minerPC = .inIteration →
      LifeStep s { s with minerPC := .atLoopTop }
  | iterationAccepted : ∀ s, s.minerPC = .inIteration →
      LifeStep s { s with minerPC := .atLoopTop,
                          events := s.events ++ [LifeEv.minedBroadcast] }
  | setExitFlag : ∀ s, s.mainPC = .beforeShutdown →
      LifeStep s { s with exit_flag := true, mainPC := .flagSet }
  | joinMiner : ∀ s, s.mainPC = .flagSet → s.minerPC = .exited →
      LifeStep s { s with mainPC := .minerJoined }
  | bottleExit : ∀ s, s.bottleDone = false →
      LifeStep s { s with bottleDone := true }
  | joinBottle : ∀ s, s.mainPC = .minerJoined → s.bottleDone = true →
      LifeStep s { s with mainPC := .returned,
                          events := s.events ++ [LifeEv.shutdownReturned] }

/-- Finitely many interleaved steps. -/
inductive LifeSteps : LifeState → LifeState → Prop where
  | refl : ∀ s, LifeSteps s s
  | tail : ∀ {s t u}, LifeSteps s t → LifeStep t u → LifeSteps s u

/-! ## The two admission checks, as predicates on the remote responses -/

/-- The status-descriptor check of the admission pass: the status GET
succeeded (HTTP 200), its body decoded, and the decoded body is
structurally equal to the local network descriptor. -/
def statusOk (cfg : Config) : HttpResult → Bool
  | .resp code (some j) => decide (code = 200) && decide (j = cfg.network)
  | _ => false

/-- The connect-handshake check of the admission pass: the connect POST
succeeded (HTTP 202, the exposure layer's accepted code), its body
decoded, and the body's `success` field is the boolean `True`. -/
def connectOk : HttpResult → Bool
  | .resp code (some j) =>
      decide (code = 202) && decide (j.get "success" = some (.jbool true))
  | _ => false

/-- Modelled from the spec: `status(peer, port) → NetworkStatusDescriptor |
none` — the claimed behaviour of the status operation, returning the parsed
descriptor itself on a 200 response and no result on failure.  Compared
against `NodeMixin.ping_status`, which the source implements instead. -/
def ping_status_spec (r : HttpResult) : PyOutcome (Option JVal) :=
  match r with
  | .requestException => .ok none
  | .resp code body =>
    if code = 200 then
      match body with
      | some j => .ok (some j)
      | none => .raised
    else .ok none

/-! ## Concrete test data -/

/-- A connect body acknowledging success. -/
def successBody : JVal := .jobj (.cons "success" (.jbool true) .nil)

/-- A node-list reply carrying the given peers under `full_nodes`. -/
def fullNodesBody (xs : List String) : JVal :=
  .jobj (.cons "full_nodes" (.jarr (JArr.ofList (xs.map JVal.jstr))) .nil)

/-- `MIN_PEERS = 3`, `MAX_PEERS = 10`, empty-object network descriptor. -/
def cfgT : Config := ⟨3, 10, .jobj .nil⟩

/-- A fixed remote world in which peer `A` reports peer `B`, peer `B`
reports peer `C`, every status matches the local descriptor, and every
connect succeeds. -/
def envT : Env where
  nodesResp := fun p =>
    if p = "A" then .resp 200 (some (fullNodesBody ["B"]))
    else if p = "B" then .resp 200 (some (fullNodesBody ["C"]))
    else .resp 200 (some (fullNodesBody []))
  statusResp := fun _ => .resp 200 (some (.jobj .nil))
  connectResp := fun _ => .resp 202 (some successBody)

/-- A fetched transaction body with all eleven fields present and a claimed
`tx_hash` of `"claimed"`. -/
def txBodyT : JVal :=
  .jobj (.cons "source" (.jstr "s")
        (.cons "destination" (.jstr "d")
        (.cons "amount" (.jnum 5)
        (.cons "fee" (.jnum 1)
        (.cons "prev_hash" (.jstr "p")
        (.cons "tx_type" (.jstr "standard")
        (.cons "timestamp" (.jnum 7)
        (.cons "tx_hash" (.jstr "claimed")
        (.cons "asset" (.jstr "a")
        (.cons "data" (.jstr "x")
        (.cons "signature" (.jstr "sig") .nil)))))))))))

/-- The transaction record read out of `txBodyT`. -/
def txT : FullNode.Transaction :=
  ⟨.jstr "s", .jstr "d", .jnum 5, .jnum 1, .jstr "p", .jstr "standard",
   .jnum 7, .jstr "a", .jstr "x", .jstr "sig"⟩

/-- A content-hash function disagreeing with the claimed hash of `txBodyT`. -/
def hashFnT : FullNode.Transaction → JVal := fun _ => .jstr "recomputed"

/-- A mined candidate block: coinbase plus two ordinary transactions. -/
def blockT : MinedBlock :=
  ⟨[.jstr "coinbase", .jstr "tx1", .jstr "tx2"], "hashT"⟩

/-- A remote world in which every status matches but every connect answers
`success: false`. -/
def envF : Env where
  nodesResp := fun _ => .requestException
  statusResp := fun _ => .resp 200 (some (.jobj .nil))
  connectResp := fun _ => .resp 202 (some (.jobj (.cons "success" (.jbool false) .nil)))

/-- Inductive invariant of the lifecycle system: the flag is set once
`shutdown` has started; the mining thread has exited by the time its join
completed; the bottle thread has exited by the time `shutdown` returned;
and the return event is logged only once `shutdown` returned. -/
def LifeInv (s : LifeState) : Prop :=
  (s.mainPC ≠ .beforeShutdown → s.exit_flag = true)
  ∧ ((s.mainPC = .minerJoined ∨ s.mainPC = .returned) → s.minerPC = .exited)
  ∧ (s.mainPC = .returned → s.bottleDone = true)
  ∧ (LifeEv.shutdownReturned ∈ s.events → s.mainPC = .returned)

/-- Lifecycle execution, step 1: `shutdown` has set the exit flag. -/
def lifeS1 : LifeState :=
  { exit_flag := true, minerPC := .atLoopTop, mainPC := .flagSet,
    bottleDone := false, events := [] }

/-- Step 2: the mining thread polled the flag and exited. -/
def lifeS2 : LifeState :=
  { exit_flag := true, minerPC := .exited, mainPC := .flagSet,
    bottleDone := false, events := [] }

/-- Step 3: `shutdown` joined the mining thread. -/
def lifeS3 : LifeState :=
  { exit_flag := true, minerPC := .exited, mainPC := .minerJoined,
    bottleDone := false, events := [] }

/-- Step 4: the bottle thread exited. -/
def lifeS4 : LifeState :=
  { exit_flag := true, minerPC := .exited, mainPC := .minerJoined,
    bottleDone := true, events := [] }

/-- Step 5: `shutdown` joined the bottle thread and returned. -/
def lifeS5 : LifeState :=
  { exit_flag := true, minerPC := .exited, mainPC := .returned,
    bottleDone := true, events := [.shutdownReturned] }

/-! ## Helper lemmas: the admission pass -/

theorem addPeer_subset (m : Nat) (ps : List String) (p : String) :
    ps ⊆ addPeer m ps p := by
  unfold addPeer
  split
  · exact fun _ h => h
  · exact List.subset_append_left _ _

theorem addPeer_cases (m : Nat) (ps : List String) (p : String) :
    addPeer m ps p = ps ∨
      (ps.length < m ∧ p ∉ ps ∧ addPeer m ps p = ps ++ [p]) := by
  unfold addPeer
  split
  · exact Or.inl rfl
  · rename_i h
    push_neg at h
    exact Or.inr ⟨h.1, h.2, rfl⟩

theorem addPeer_length_le (m : Nat) (ps : List String) (p : String)
    (h : ps.length ≤ m) : (addPeer m ps p).length ≤ m := by
  rcases addPeer_cases m ps p with he | ⟨hlt, _, he⟩ <;> rw [he]
  · exact h
  · simpa using hlt

theorem addPeer_nodup (m : Nat) (ps : List String) (p : String)
    (h : ps.Nodup) : (addPeer m ps p).Nodup := by
  rcases addPeer_cases m ps p with he | ⟨_, hp, he⟩ <;> rw [he]
  · exact h
  · simpa [List.nodup_append] using ⟨h, hp⟩

/-- Processing one candidate either leaves the peer set alone or inserts
that candidate via `addPeer`. -/
theorem processPeer_snd (cfg : Config) (host : String) (env : Env)
    (ps : List String) (peer : String) :
    (processPeer cfg host env ps peer).2 = ps ∨
      (processPeer cfg host env ps peer).2 = addPeer cfg.max_peers ps peer := by
  unfold processPeer
  repeat' split
  all_goals simp

theorem admissionLoop_length_le (cfg : Config) (host : String) (env : Env)
    (l : List String) :
    ∀ ps : List String, ps.length ≤ cfg.max_peers →
      ((admissionLoop cfg host env l ps).2).length ≤ cfg.max_peers := by
  induction l with
  | nil => intro ps h; simpa [admissionLoop] using h
  | cons peer rest ih =>
    intro ps h
    unfold admissionLoop
    split
    · simpa using h
    · rcases hpp : processPeer cfg host env ps peer with ⟨out, ps'⟩
      have hps' : ps' = ps ∨ ps' = addPeer cfg.max_peers ps peer := by
        have hd := processPeer_snd cfg host env ps peer
        rw [hpp] at hd
        simpa using hd
      have hlen : ps'.length ≤ cfg.max_peers := by
        rcases hps' with h1 | h1 <;> subst h1
        · exact h
        · exact addPeer_length_le _ _ _ h
      cases out
      · simpa using ih ps' hlen
      · simpa using hlen

theorem admissionLoop_subset (cfg : Config) (host : String) (env : Env)
    (l : List String) :
    ∀ ps : List String, ps ⊆ (admissionLoop cfg host env l ps).2 := by
  induction l with
  | nil => intro ps; simp [admissionLoop]
  | cons peer rest ih =>
    intro ps
    unfold admissionLoop
    split
    · simp
    · rcases hpp : processPeer cfg host env ps peer with ⟨out, ps'⟩
      have hps' : ps' = ps ∨ ps' = addPeer cfg.max_peers ps peer := by
        have hd := processPeer_snd cfg host env ps peer
        rw [hpp] at hd
        simpa using hd
      have hsub : ps ⊆ ps' := by
        rcases hps' with h1 | h1 <;> subst h1
        · exact fun _ h => h
        · exact addPeer_subset _ _ _
      cases out
      · exact fun x hx => ih ps' (hsub hx)
      · simpa using hsub

theorem admissionLoop_nodup (cfg : Config) (host : String) (env : Env)
    (l : List String) :
    ∀ ps : List String, ps.Nodup → ((admissionLoop cfg host env l ps).2).Nodup := by
  induction l with
  | nil => intro ps h; simpa [admissionLoop] using h
  | cons peer rest ih =>
    intro ps h
    unfold admissionLoop
    split
    · simpa using h
    · rcases hpp : processPeer cfg host env ps peer with ⟨out, ps'⟩
      have hps' : ps' = ps ∨ ps' = addPeer cfg.max_peers ps peer := by
        have hd := processPeer_snd cfg host env ps peer
        rw [hpp] at hd
        simpa using hd
      have hnd : ps'.Nodup := by
        rcases hps' with h1 | h1 <;> subst h1
        · exact h
        · exact addPeer_nodup _ _ _ h
      cases out
      · simpa using ih ps' hnd
      · simpa using hnd

theorem check_peers_length_le (cfg : Config) (host : String) (env : Env)
    (ps : List String) (h : ps.length ≤ cfg.max_peers) :
    ((check_peers cfg host env ps).2).length ≤ cfg.max_peers := by
  unfold check_peers
  split
  · rcases hfk : find_known_peers env ps with known | _
    · simpa using admissionLoop_length_le cfg host env known ps h
    · simpa using h
  · simpa using h

theorem check_peers_subset (cfg : Config) (host : String) (env : Env)
    (ps : List String) : ps ⊆ (check_peers cfg host env ps).2 := by
  unfold check_peers
  split
  · rcases hfk : find_known_peers env ps with known | _
    · simpa using admissionLoop_subset cfg host env known ps
    · simp
  · simp

theorem check_peers_nodup (cfg : Config) (host : String) (env : Env)
    (ps : List String) (h : ps.Nodup) : ((check_peers cfg host env ps).2).Nodup := by
  unfold check_peers
  split
  · rcases hfk : find_known_peers env ps with known | _
    · simpa using admissionLoop_nodup cfg host env known ps h
    · simpa using h
  · simpa using h

theorem check_peers_min_noop (cfg : Config) (host : String) (env : Env)
    (ps : List String) (h : cfg.min_peers ≤ ps.length) :
    check_peers cfg host env ps = (.ok (), ps) := by
  unfold check_peers
  rw [if_neg (by omega)]

/-! ## Helper lemmas: the lifecycle transition system -/

theorem lifeInv_init : LifeInv initLife := by
  refine ⟨?_, ?_, ?_, ?_⟩ <;> simp [initLife]

theorem lifeInv_step {s t : LifeState} (h : LifeStep s t) (hs : LifeInv s) :
    LifeInv t := by
  obtain ⟨h1, h2, h3, h4⟩ := hs
  cases h with
  | pollContinue hpc hfl =>
    refine ⟨h1, fun hm => ?_, h3, h4⟩
    exact absurd (h2 hm) (by rw [hpc]; simp)
  | pollExit hpc hfl =>
    exact ⟨h1, fun _ => rfl, h3, h4⟩
  | iterationNoCommit hpc =>
    refine ⟨h1, fun hm => ?_, h3, h4⟩
    exact absurd (h2 hm) (by rw [hpc]; simp)
  | iterationAccepted hpc =>
    refine ⟨h1, fun hm => ?_, h3, fun hm => ?_⟩
    · exact absurd (h2 hm) (by rw [hpc]; simp)
    · simp only [List.mem_append, List.mem_singleton] at hm
      rcases hm with hm | hm
      · exact h4 hm
      · exact absurd hm (by simp)
  | setExitFlag hpc =>
    refine ⟨fun _ => rfl, fun hm => ?_, fun hm => ?_, fun hm => ?_⟩
    · rcases hm with hm | hm <;> simp at hm
    · simp at hm
    · exact absurd (h4 hm) (by rw [hpc]; simp)
  | joinMiner hpc hex =>
    refine ⟨fun _ => h1 (by rw [hpc]; simp), fun _ => hex, fun hm => ?_, fun hm => ?_⟩
    · simp at hm
    · exact absurd (h4 hm) (by rw [hpc]; simp)
  | bottleExit hb =>
    exact ⟨h1, h2, fun _ => rfl, h4⟩
  | joinBottle hpc hb =>
    exact ⟨fun _ => h1 (by rw [hpc]; simp), fun _ => h2 (Or.inl hpc), fun _ => hb,
      fun _ => rfl⟩

theorem lifeInv_reach {s : LifeState} (h : LifeSteps initLife s) : LifeInv s := by
  induction h with
  | refl => exact lifeInv_init
  | tail _ hstep ih => exact lifeInv_step hstep ih

/-- A state in which `shutdown` has returned, the mining thread has exited
and the bottle thread has exited admits no further step at all. -/
theorem life_terminal {s t : LifeState} (hret : s.mainPC = .returned)
    (hminer : s.minerPC = .exited) (hbottle : s.bottleDone = true) :
    ¬ LifeStep s t := by
  intro h
  cases h <;> simp_all

/-! ## Claims -/

/-- C1: in the mining loop, whenever a produced candidate block is accepted
by `blockchain.add_block`, the iteration first removes from the mempool
exactly the block's transactions excluding position zero (the coinbase),
and only then issues the block-hash inventory broadcast; a candidate for
which `add_block` returns false causes no mempool removal and no
broadcast, and an empty attempt has no effect. -/
theorem claim_C1 (add_block : MinedBlock → Bool) (b : MinedBlock)
    (attempts : List (Option MinedBlock)) :
    (add_block b = true → mine add_block (attempts ++ [some b]) =
        mine add_block attempts ++
          [MineEffect.removeFromMempool (b.transactions.drop 1),
           MineEffect.broadcastBlockInv b.header_hash])
    ∧ (add_block b = false → mine add_block (attempts ++ [some b]) =
        mine add_block attempts)
    ∧ mine add_block (attempts ++ [none]) = mine add_block attempts := by
  refine ⟨fun h => ?_, fun h => ?_, ?_⟩
  · simp [mine, mineStep, h]
  · simp [mine, mineStep, h]
  · simp [mine, mineStep]

/-- Witness for C1: a concrete accepted block `[coinbase, tx1, tx2]` leads
to the removal of exactly `[tx1, tx2]` followed by the block-hash
broadcast. -/
theorem claim_C1_witness :
    (fun _ => true : MinedBlock → Bool) blockT = true
    ∧ mine (fun _ => true) [some blockT] =
        [MineEffect.removeFromMempool [.jstr "tx1", .jstr "tx2"],
         MineEffect.broadcastBlockInv "hashT"] := by
  have h := (claim_C1 (fun _ => true) blockT []).1 rfl
  refine ⟨rfl, ?_⟩
  rw [show [some blockT] = ([] : List (Option MinedBlock)) ++ [some blockT] from rfl, h]
  simp [mine, blockT]

/-- C2: a transaction fetched with an HTTP 200 whose recomputed content
hash differs from the claimed `tx_hash` field yields `None` with no
downtime recorded; downtime is recorded on transport failure. -/
theorem claim_C2 (hashFn : FullNode.Transaction → JVal) (j : JVal)
    (t : FullNode.Transaction) (claimed : JVal)
    (hread : FullNode.readTransaction j = .ok (t, claimed))
    (hne : hashFn t ≠ claimed) :
    FullNode.request_transaction hashFn (.resp 200 (some j)) = (.ok none, false)
    ∧ FullNode.request_transaction hashFn .requestException = (.ok none, true) := by
  constructor
  · simp [FullNode.request_transaction, hread, hne]
  · rfl

/-- Witness for C2: a concrete well-formed transaction body whose claimed
hash disagrees with the recomputed one is discarded without downtime. -/
theorem claim_C2_witness :
    FullNode.readTransaction txBodyT = .ok (txT, .jstr "claimed")
    ∧ hashFnT txT ≠ .jstr "claimed"
    ∧ FullNode.request_transaction hashFnT (.resp 200 (some txBodyT)) =
        (.ok none, false) := by
  have h := claim_C2 hashFnT txBodyT txT (.jstr "claimed") (by decide) (by decide)
  exact ⟨by decide, by decide, h.1⟩

/-- C10: in `request_block_header`, `block_hash` takes precedence over
`height`; with `block_hash = None` and `height` given, the request is by
height; with both `None`, the request is for the latest block. -/
theorem claim_C10 (bh ht : Option String) (x y : String) :
    (bh = some x → FullNode.blockHeaderSelector bh ht = ("hash", x))
    ∧ (bh = none → ht = some y → FullNode.blockHeaderSelector bh ht = ("height", y))
    ∧ (bh = none → ht = none →
        FullNode.blockHeaderSelector bh ht = ("height", "latest")) := by
  refine ⟨fun h => ?_, fun h1 h2 => ?_, fun h1 h2 => ?_⟩ <;> subst_vars <;> rfl

/-- Witness for C10: the three selector cases at concrete arguments,
including a call where both `block_hash` and `height` are given. -/
theorem claim_C10_witness :
    FullNode.blockHeaderSelector (some "h1") (some "7") = ("hash", "h1")
    ∧ FullNode.blockHeaderSelector none (some "7") = ("height", "7")
    ∧ FullNode.blockHeaderSelector none none = ("height", "latest") :=
  ⟨(claim_C10 (some "h1") (some "7") "h1" "7").1 rfl,
   (claim_C10 none (some "7") "h1" "7").2.1 rfl rfl,
   (claim_C10 none none "h1" "7").2.2 rfl rfl⟩

/-- Counterexample to C5: a 200 response whose body cannot be decoded makes
every RemoteClient operation raise (the decode error is not caught; only
`RequestException` is), instead of returning the no-result sentinel. -/
theorem claim_C5_counterexample :
    NodeMixin.request_nodes (.resp 200 none) = (.raised, false)
    ∧ NodeMixin.ping_status (.jobj .nil) (.resp 200 none) = .raised
    ∧ FullNode.request_block_header (.resp 200 none) = (.raised, false)
    ∧ FullNode.request_transaction hashFnT (.resp 200 none) = (.raised, false)
    ∧ FullNode.request_transactions_inv (.resp 200 none) = (.raised, false)
    ∧ FullNode.request_blocks_inv (.resp 200 none) = (.raised, false) :=
  ⟨rfl, rfl, rfl, rfl, rfl, rfl⟩

/-- C5 amended: every RemoteClient operation returns the no-result sentinel
(not an exception) on a non-200 status code and on transport failure —
with downtime recorded on transport failure by all operations except
`ping_status` — but a 200 response with an undecodable body raises. -/
theorem claim_C5_amended (code : Nat) (body : Option JVal) (net : JVal)
    (hashFn : FullNode.Transaction → JVal) (h : code ≠ 200) :
    (NodeMixin.request_nodes (.resp code body) = (.ok none, false)
      ∧ NodeMixin.ping_status net (.resp code body) = .ok none
      ∧ FullNode.request_block_header (.resp code body) = (.ok none, false)
      ∧ FullNode.request_transaction hashFn (.resp code body) = (.ok none, false)
      ∧ FullNode.request_transactions_inv (.resp code body) = (.ok none, false)
      ∧ FullNode.request_blocks_inv (.resp code body) = (.ok none, false))
    ∧ (NodeMixin.request_nodes .requestException = (.ok none, true)
      ∧ NodeMixin.ping_status net .requestException = .ok none
      ∧ FullNode.request_block_header .requestException = (.ok none, true)
      ∧ FullNode.request_transaction hashFn .requestException = (.ok none, true)
      ∧ FullNode.request_transactions_inv .requestException = (.ok none, true)
      ∧ FullNode.request_blocks_inv .requestException = (.ok none, true)) := by
  refine ⟨⟨?_, ?_, ?_, ?_, ?_, ?_⟩, rfl, rfl, rfl, rfl, rfl, rfl⟩ <;>
    simp [NodeMixin.request_nodes, NodeMixin.ping_status,
      FullNode.request_block_header, FullNode.request_transaction,
      FullNode.request_transactions_inv, FullNode.request_blocks_inv, h]

/-- Witness for the amended C5 at status 404 and at a transport failure. -/
theorem claim_C5_witness :
    (404 : Nat) ≠ 200
    ∧ NodeMixin.request_nodes (.resp 404 (some .jnull)) = (.ok none, false)
    ∧ FullNode.request_blocks_inv .requestException = (.ok none, true) := by
  have h := claim_C5_amended 404 (some .jnull) (.jobj .nil) hashFnT (by decide)
  exact ⟨by decide, h.1.1, h.2.2.2.2.2.2⟩

/-- Counterexample to C9: on an HTTP 200 the status operation does not
return the peer's parsed descriptor — it returns the boolean comparison
with the local descriptor, so two distinct remote descriptors (here the
numbers 1 and 2, against an empty-object local descriptor) produce
identical results, while the spec-modelled operation distinguishes them. -/
theorem claim_C9_counterexample :
    NodeMixin.ping_status (.jobj .nil) (.resp 200 (some (.jnum 1))) =
      NodeMixin.ping_status (.jobj .nil) (.resp 200 (some (.jnum 2)))
    ∧ ping_status_spec (.resp 200 (some (.jnum 1))) ≠
        ping_status_spec (.resp 200 (some (.jnum 2)))
    ∧ NodeMixin.ping_status (.jobj .nil) (.resp 200 (some (.jnum 1))) =
        .ok (some false) :=
  ⟨rfl, by decide, rfl⟩

/-- C9 amended: on an HTTP 200 with a decodable body, `ping_status` returns
the boolean telling whether the peer's descriptor equals the local network
descriptor (`True` iff compatible); it returns the no-result sentinel on a
non-200 status and on transport failure (recording no downtime). -/
theorem claim_C9_amended (net j : JVal) (code : Nat) (body : Option JVal) :
    (NodeMixin.ping_status net (.resp 200 (some j)) = .ok (some true) ↔ j = net)
    ∧ (NodeMixin.ping_status net (.resp 200 (some j)) = .ok (some false) ↔ j ≠ net)
    ∧ (code ≠ 200 → NodeMixin.ping_status net (.resp code body) = .ok none)
    ∧ NodeMixin.ping_status net .requestException = .ok none := by
  refine ⟨?_, ?_, fun h => ?_, rfl⟩
  · by_cases hj : j = net <;> simp [NodeMixin.ping_status, hj]
  · by_cases hj : j = net <;> simp [NodeMixin.ping_status, hj]
  · simp [NodeMixin.ping_status, h]

/-- Witness for the amended C9: a matching descriptor reports `True`, and a
500 reports no result. -/
theorem claim_C9_witness :
    NodeMixin.ping_status .jnull (.resp 200 (some .jnull)) = .ok (some true)
    ∧ (500 : Nat) ≠ 200
    ∧ NodeMixin.ping_status .jnull (.resp 500 none) = .ok none := by
  have h := claim_C9_amended .jnull .jnull 500 none
  exact ⟨h.1.mpr rfl, by decide, h.2.2.1 (by decide)⟩

/-- Counterexample to C6: with two reachable peers, `broadcast_transaction`
POSTs only to the first and returns its response — the second peer never
receives the transaction. -/
theorem claim_C6_counterexample :
    broadcast_transaction_loop (fun _ => .resp 200 (some .jnull)) ["P", "Q"] =
      ⟨some (200, some .jnull), ["P"], []⟩
    ∧ (["P"] : List String) ≠ ["P", "Q"] :=
  ⟨rfl, by decide⟩

/-- C6 amended: the transaction broadcast loop POSTs to peers in order and
returns on the **first** peer whose request does not raise (recording
downtime for, and continuing past, each peer whose request raised); only
when every peer's request raises does it return `None`, having POSTed to
and recorded downtime for every peer. -/
theorem claim_C6_amended (postResp : String → HttpResult) (l pre rest : List String)
    (p : String) (code : Nat) (body : Option JVal) :
    ((∀ q ∈ l, postResp q = .requestException) →
      broadcast_transaction_loop postResp l = ⟨none, l, l⟩)
    ∧ ((∀ q ∈ pre, postResp q = .requestException) → postResp p = .resp code body →
      broadcast_transaction_loop postResp (pre ++ p :: rest) =
        ⟨some (code, body), pre ++ [p], pre⟩) := by
  constructor
  · induction l with
    | nil => intro _; rfl
    | cons q qs ih =>
      intro hall
      have hq : postResp q = .requestException := hall q (by simp)
      have ih' := ih (fun x hx => hall x (by simp [hx]))
      simp [broadcast_transaction_loop, hq, ih']
  · induction pre with
    | nil =>
      intro _ hp
      simp [broadcast_transaction_loop, hp]
    | cons q qs ih =>
      intro hpre hp
      have hq : postResp q = .requestException := hpre q (by simp)
      have ih' := ih (fun x hx => hpre x (by simp [hx])) hp
      simp [broadcast_transaction_loop, hq, ih']

/-- Witness for the amended C6: peer `P` raises, peer `Q` answers — the
loop records downtime for `P`, POSTs to both, and returns `Q`'s response. -/
theorem claim_C6_witness :
    broadcast_transaction_loop
        (fun q => if q = "Q" then .resp 200 (some .jnull) else .requestException)
        ["P", "Q"] =
      ⟨some (200, some .jnull), ["P", "Q"], ["P"]⟩ := by
  have h := (claim_C6_amended
    (fun q => if q = "Q" then .resp 200 (some .jnull) else .requestException)
    [] ["P"] [] "Q" 200 (some .jnull)).2 (by decide) (by decide)
  simpa using h

/-- C3: starting from any peer set within the configured maximum (the
PeerSet data-model invariant), the admission pass never leaves the peer
set with more than `MAX_PEERS` entries, regardless of how many candidates
satisfy the admission checks. -/
theorem claim_C3 (cfg : Config) (host : String) (env : Env) (ps : List String)
    (h : ps.length ≤ cfg.max_peers) :
    ((check_peers cfg host env ps).2).length ≤ cfg.max_peers :=
  check_peers_length_le cfg host env ps h

/-- Witness for C3: a concrete admission pass (which does admit a new peer)
stays within `MAX_PEERS = 10`. -/
theorem claim_C3_witness :
    (["A"] : List String).length ≤ cfgT.max_peers
    ∧ ((check_peers cfgT "H" envT ["A"]).2).length ≤ cfgT.max_peers :=
  ⟨by decide, claim_C3 cfgT "H" envT ["A"] (by decide)⟩

/-- C4: a candidate reached by the admission pass (not self, not already a
peer, peer set below `MAX_PEERS`) is admitted iff both checks succeed: the
status GET yields the endpoint's success code (200) with a body equal to
the local network descriptor, and the connect POST yields its success code
(202) with a body whose `success` field is `True`. -/
theorem claim_C4 (cfg : Config) (host : String) (env : Env) (ps : List String)
    (peer : String) (hhost : peer ≠ host) (hmem : peer ∉ ps)
    (hlen : ps.length < cfg.max_peers) :
    peer ∈ (processPeer cfg host env ps peer).2 ↔
      (statusOk cfg (env.statusResp peer) = true
        ∧ connectOk (env.connectResp peer) = true) := by
  have hadd : addPeer cfg.max_peers ps peer = ps ++ [peer] := by
    unfold addPeer
    rw [if_neg (by push_neg; exact ⟨by omega, hmem⟩)]
  unfold processPeer
  rw [if_neg hhost]
  cases hs : env.statusResp peer with
  | requestException => simp [statusOk, hmem]
  | resp code body =>
    dsimp only
    by_cases hc : code = 200
    · subst hc
      rw [if_neg (fun h => h rfl)]
      cases body with
      | none => simp [statusOk, hmem]
      | some j =>
        dsimp only
        by_cases hj : j = cfg.network
        · rw [if_neg (by simp [hj])]
          cases hcn : env.connectResp peer with
          | requestException => simp [statusOk, connectOk, hj, hmem]
          | resp ccode cbody =>
            dsimp only
            by_cases hcc : ccode = 202
            · subst hcc
              rw [if_pos rfl]
              cases cbody with
              | none => simp [statusOk, connectOk, hj, hmem]
              | some cj =>
                dsimp only
                cases cj with
                | jobj fields =>
                  by_cases hsucc : fields.lookup "success" = some (.jbool true)
                  · simp [statusOk, connectOk, JVal.isObj, JVal.get, hsucc, hadd, hj]
                  · simp [statusOk, connectOk, JVal.isObj, JVal.get, hsucc, hj, hmem]
                | jnull => simp [statusOk, connectOk, JVal.isObj, JVal.get, hj, hmem]
                | jbool b => simp [statusOk, connectOk, JVal.isObj, JVal.get, hj, hmem]
                | jnum n => simp [statusOk, connectOk, JVal.isObj, JVal.get, hj, hmem]
                | jstr str => simp [statusOk, connectOk, JVal.isObj, JVal.get, hj, hmem]
                | jarr a => simp [statusOk, connectOk, JVal.isObj, JVal.get, hj, hmem]
            · rw [if_neg hcc]
              cases cbody <;> simp [statusOk, connectOk, hj, hmem, hcc]
        · rw [if_pos hj]
          simp [statusOk, hj, hmem]
    · rw [if_pos hc]
      cases body <;> simp [statusOk, hc, hmem]

/-- Witness for C4: with both checks passing, the fresh candidate `B` is
admitted; with the connect handshake answering `success: false` and the
status check still passing, `B` is not admitted. -/
theorem claim_C4_witness :
    "B" ∈ (processPeer cfgT "H" envT ["A"] "B").2
    ∧ "B" ∉ (processPeer cfgT "H" envF ["A"] "B").2 := by
  constructor
  · exact (claim_C4 cfgT "H" envT ["A"] "B" (by decide) (by decide)
      (by decide)).mpr ⟨by decide, by decide⟩
  · intro hmem
    have h := (claim_C4 cfgT "H" envF ["A"] "B" (by decide) (by decide)
      (by decide)).mp hmem
    revert h
    decide

/-- Counterexample to C8: with the remote responses held fixed, a second
`check_peers` run does not leave the peer set as the first run left it —
the first run admits `B` (reported by `A`), and the second run then also
admits `C` (reported by the newly-admitted `B`). -/
theorem claim_C8_counterexample :
    (check_peers cfgT "H" envT ["A"]).2 = ["A", "B"]
    ∧ (check_peers cfgT "H" envT (check_peers cfgT "H" envT ["A"]).2).2 =
        ["A", "B", "C"]
    ∧ (check_peers cfgT "H" envT (check_peers cfgT "H" envT ["A"]).2).2 ≠
        (check_peers cfgT "H" envT ["A"]).2 :=
  ⟨by decide, by decide, by decide⟩

/-- C8 amended: an admission pass never removes peers and never introduces
duplicates, and it is a no-op whenever the peer count already meets
`MIN_PEERS`; in particular a second run immediately after a first one is a
no-op whenever the first run reached `MIN_PEERS` (but may otherwise admit
further peers reported by peers the first run admitted). -/
theorem claim_C8_amended (cfg : Config) (host : String) (env : Env)
    (ps : List String) :
    ps ⊆ (check_peers cfg host env ps).2
    ∧ (ps.Nodup → ((check_peers cfg host env ps).2).Nodup)
    ∧ (cfg.min_peers ≤ ps.length → check_peers cfg host env ps = (.ok (), ps))
    ∧ (cfg.min_peers ≤ ((check_peers cfg host env ps).2).length →
        check_peers cfg host env (check_peers cfg host env ps).2 =
          (.ok (), (check_peers cfg host env ps).2)) :=
  ⟨check_peers_subset cfg host env ps,
   check_peers_nodup cfg host env ps,
   check_peers_min_noop cfg host env ps,
   fun h => check_peers_min_noop cfg host env _ h⟩

/-- Witness for the amended C8: the concrete first run grows `["A"]` to a
duplicate-free superset, and a run starting at `MIN_PEERS = 3` peers is a
no-op. -/
theorem claim_C8_witness :
    (["A"] : List String) ⊆ (check_peers cfgT "H" envT ["A"]).2
    ∧ ((check_peers cfgT "H" envT ["A"]).2).Nodup
    ∧ check_peers cfgT "H" envT ["A", "B", "C"] = (.ok (), ["A", "B", "C"]) := by
  have h1 := claim_C8_amended cfgT "H" envT ["A"]
  have h2 := claim_C8_amended cfgT "H" envT ["A", "B", "C"]
  exact ⟨h1.1, h1.2.1 (by decide), h2.2.2.1 (by decide)⟩

/-- C7: in every reachable state of the lifecycle system, the mining join
precedes the exposure-layer join (once `shutdown` is past the mining join,
the flag is set and the mining thread has exited), and once `shutdown` has
returned the mining thread has exited and no step — in particular no
mining-originated broadcast — can occur. -/
theorem claim_C7 (s t : LifeState) (hreach : LifeSteps initLife s) :
    ((s.mainPC = .minerJoined ∨ s.mainPC = .returned) →
        s.minerPC = .exited ∧ s.exit_flag = true)
    ∧ (LifeEv.shutdownReturned ∈ s.events →
        s.mainPC = .returned ∧ s.minerPC = .exited ∧ ¬ LifeStep s t) := by
  obtain ⟨h1, h2, h3, h4⟩ := lifeInv_reach hreach
  constructor
  · intro hm
    refine ⟨h2 hm, h1 ?_⟩
    rcases hm with hm | hm <;> rw [hm] <;> simp
  · intro hev
    have hret := h4 hev
    have hex := h2 (Or.inr hret)
    exact ⟨hret, hex, life_terminal hret hex (h3 hret)⟩

/-- Witness for C7: a concrete five-step execution — set flag, miner polls
and exits, join miner, bottle exits, join bottle — reaches a state where
`shutdown` has returned, the mining thread has exited, and no further step
exists. -/
theorem claim_C7_witness :
    LifeEv.shutdownReturned ∈ lifeS5.events
    ∧ lifeS5.mainPC = .returned
    ∧ lifeS5.minerPC = .exited
    ∧ lifeS5.exit_flag = true
    ∧ ¬ LifeStep lifeS5 initLife := by
  have t1 : LifeStep initLife lifeS1 := LifeStep.setExitFlag initLife rfl
  have t2 : LifeStep lifeS1 lifeS2 := LifeStep.pollExit lifeS1 rfl rfl
  have t3 : LifeStep lifeS2 lifeS3 := LifeStep.joinMiner lifeS2 rfl rfl
  have t4 : LifeStep lifeS3 lifeS4 := LifeStep.bottleExit lifeS3 rfl
  have t5 : LifeStep lifeS4 lifeS5 := LifeStep.joinBottle lifeS4 rfl rfl
  have hsteps : LifeSteps initLife lifeS5 :=
    .tail (.tail (.tail (.tail (.tail (.refl initLife) t1) t2) t3) t4) t5
  have h := claim_C7 lifeS5 initLife hsteps
  have hev : LifeEv.shutdownReturned ∈ lifeS5.events := by
    simp [lifeS5]
  obtain ⟨hret, hex, hnostep⟩ := h.2 hev
  exact ⟨hev, hret, hex, (h.1 (Or.inr hret)).2, hnostep⟩
